import Mathlib

/-!
Verification development for the tap-smart-open stream engine
(`tap_smart_open/streams.py`): a shallow embedding of the path resolver,
the schema-inference engine, the incremental filter and the record
orchestration in `SmartOpenStream`, together with theorems settling the
specification claims about them.

Conventions of the embedding:
* Python values flowing through records are modelled by `Value`; floats are
  modelled as rationals (the tabular reader normalizes non-finite floats to
  null before any code modelled here sees them).
* Python `dict`s are modelled as association lists in insertion order
  (first occurrence wins on lookup, assignment replaces in place or appends).
* Python `set[str]` is modelled canonically as a strictly sorted list of
  strings; `sorted(types)` is then the list itself.
* External library calls (`dateutil.parser.isoparse`, `int(...)`,
  `float(...)`, `urllib.parse.urlparse`, `re.search`) are modelled by
  executable functions restricted to the shapes of data this tap handles;
  each model is documented at its definition.
* Fallible code returns `Except String`; an uncaught Python exception is
  `.error`.
-/

namespace TapSmartOpen

/-- A Python runtime value as it appears in records and cursors.
`vnull` is Python `None`; `vfloat` models `float` as a rational;
`vdt` is a parsed `datetime`, encoded as a totally ordered natural key;
`vobj`/`varr` mark dict/list values (their contents are never inspected by
the code under verification). -/
inductive Value where
  | vnull
  | vbool (b : Bool)
  | vint (n : Int)
  | vfloat (q : ℚ)
  | vstr (s : String)
  | vdt (t : Nat)
  | vobj
  | varr
  deriving DecidableEq, Repr

/-- Numeric value of a list of decimal digit characters. -/
def digitsVal (cs : List Char) : Nat :=
  cs.foldl (fun a c => 10 * a + (c.toNat - 48)) 0

/-- Lexicographic (code-point) strict order on character lists: the order
Python string comparison and `sorted` use. -/
def charListLt : List Char → List Char → Bool
  | [], [] => false
  | [], _ :: _ => true
  | _ :: _, [] => false
  | a :: as, b :: bs => if a < b then true else if b < a then false else charListLt as bs

/-- Lexicographic strict order on strings (Python `<`). -/
def strLt (a b : String) : Bool :=
  charListLt a.toList b.toList

/-- Mixed-radix encoding of a date-time; strictly monotone in the
lexicographic order of the components over their valid ranges. -/
def encodeDt (y mo d h mi s : Nat) : Nat :=
  ((((y * 13 + mo) * 32 + d) * 25 + h) * 61 + mi) * 61 + s

/-- Model of `dateutil.parser.isoparse` (external library), restricted to
the naive ISO-8601 shapes this tap exchanges: `YYYY`, `YYYY-MM-DD` and
`YYYY-MM-DDTHH:MM:SS`.  Returns a totally ordered timestamp key on
success, `none` on a parse failure (the Python call raises). -/
def isoparse (s : String) : Option Nat :=
  match s.toList with
  | [y1, y2, y3, y4] =>
      if ([y1, y2, y3, y4]).all Char.isDigit then
        some (encodeDt (digitsVal [y1, y2, y3, y4]) 1 1 0 0 0)
      else none
  | [y1, y2, y3, y4, c1, m1, m2, c2, d1, d2] =>
      if c1 = '-' ∧ c2 = '-' ∧ ([y1, y2, y3, y4, m1, m2, d1, d2]).all Char.isDigit then
        let y := digitsVal [y1, y2, y3, y4]
        let mo := digitsVal [m1, m2]
        let d := digitsVal [d1, d2]
        if 1 ≤ mo ∧ mo ≤ 12 ∧ 1 ≤ d ∧ d ≤ 31 then some (encodeDt y mo d 0 0 0) else none
      else none
  | [y1, y2, y3, y4, c1, m1, m2, c2, d1, d2, ct, h1, h2, c3, i1, i2, c4, s1, s2] =>
      if c1 = '-' ∧ c2 = '-' ∧ ct = 'T' ∧ c3 = ':' ∧ c4 = ':' ∧
          ([y1, y2, y3, y4, m1, m2, d1, d2, h1, h2, i1, i2, s1, s2]).all Char.isDigit then
        let y := digitsVal [y1, y2, y3, y4]
        let mo := digitsVal [m1, m2]
        let d := digitsVal [d1, d2]
        let h := digitsVal [h1, h2]
        let mi := digitsVal [i1, i2]
        let sec := digitsVal [s1, s2]
        if 1 ≤ mo ∧ mo ≤ 12 ∧ 1 ≤ d ∧ d ≤ 31 ∧ h ≤ 23 ∧ mi ≤ 59 ∧ sec ≤ 59 then
          some (encodeDt y mo d h mi sec)
        else none
      else none
  | _ => none

/-- Model of Python `int(s)`: optional sign followed by decimal digits. -/
def parseIntStr (s : String) : Option Int :=
  match s.toList with
  | '-' :: rest =>
      if rest ≠ [] ∧ rest.all Char.isDigit then some (-(digitsVal rest : Int)) else none
  | '+' :: rest =>
      if rest ≠ [] ∧ rest.all Char.isDigit then some ((digitsVal rest : Int)) else none
  | cs =>
      if cs ≠ [] ∧ cs.all Char.isDigit then some ((digitsVal cs : Int)) else none

/-- Model of Python `float(s)` for the decimal shapes reaching it here:
optional sign, digits, optional dot with fractional digits (at least one
digit in total). -/
def parseFloatStr (s : String) : Option ℚ :=
  let core : List Char → Option ℚ := fun body =>
    let ip := body.takeWhile (fun c => c ≠ '.')
    match body.dropWhile (fun c => c ≠ '.') with
    | '.' :: fp =>
        if (ip ≠ [] ∨ fp ≠ []) ∧ ip.all Char.isDigit ∧ fp.all Char.isDigit then
          some ((digitsVal ip : ℚ) + (digitsVal fp : ℚ) / ((10 : ℚ) ^ fp.length))
        else none
    | _ =>
        if body ≠ [] ∧ body.all Char.isDigit then some ((digitsVal body : ℚ)) else none
  match s.toList with
  | '-' :: rest => (core rest).map (fun q => -q)
  | '+' :: rest => core rest
  | cs => core cs

/-- `_coerce_replication_value` (streams.py:32-47): numbers, booleans and
`None` pass through; a string is attempted as a datetime, then as a number
(float when it contains a dot, else integer), else kept as a string; any
other value passes through. -/
def coerceReplicationValue (v : Value) : Value :=
  match v with
  | .vstr s =>
      match isoparse s with
      | some t => .vdt t
      | none =>
          if s.toList.contains '.' then
            match parseFloatStr s with
            | some q => .vfloat q
            | none => .vstr s
          else
            match parseIntStr s with
            | some n => .vint n
            | none => .vstr s
  | v => v

/-- The cursor-side coercion inside `get_records` (streams.py:450-456): a
string cursor is attempted as a datetime only; on failure it stays a plain
string.  A non-string cursor is used as is. -/
def coerceCursorValue (v : Value) : Value :=
  match v with
  | .vstr s =>
      match isoparse s with
      | some t => .vdt t
      | none => .vstr s
  | v => v

/-- Numeric view of a value under Python comparison (`bool` is an `int`). -/
def valueAsRat : Value → Option ℚ
  | .vbool b => some (if b then 1 else 0)
  | .vint n => some ((n : ℚ))
  | .vfloat q => some q
  | _ => none

/-- Python `a <= b` as a partial operation: `none` models a `TypeError`
between unorderable types. -/
def pyLe (a b : Value) : Option Bool :=
  match valueAsRat a, valueAsRat b with
  | some x, some y => some (decide (x ≤ y))
  | _, _ =>
      match a, b with
      | .vstr x, .vstr y => some (decide (x ≤ y))
      | .vdt x, .vdt y => some (decide (x ≤ y))
      | _, _ => none

/-- Python `a > b` (on the orderable pairs this is the strict order dual
to `pyLe`). -/
def pyGt (a b : Value) : Option Bool :=
  (pyLe a b).map (fun r => !r)

/-- A record: a Python `dict` as an association list in insertion order. -/
abbrev Record := List (String × Value)

/-- `rec.get(k)`: first binding of `k`, defaulting to `None`. -/
def recGet (r : Record) (k : String) : Value :=
  match r.lookup k with
  | some v => v
  | none => .vnull

/-- `rec[k] = v` on a dict: replace the binding in place if the key is
present, else append it. -/
def recSet : Record → String → Value → Record
  | [], k, v => [(k, v)]
  | (k', v') :: rest, k, v =>
      if k' = k then (k, v) :: rest else (k', v') :: recSet rest k v

/-- Truthiness of an optional string config entry (`if self.replication_key:`
style checks): present and non-empty. -/
def strOptTruthy : Option String → Bool
  | some s => s ≠ ""
  | none => false

/-- The stamping step of `get_records` (streams.py:438-440): when the
replication key is `_sdc_extracted_at`, the extraction timestamp (computed
once per call) is written into the record. -/
def stampRecord (repKey : Option String) (extractionTime : String) (rec : Record) : Record :=
  if repKey = some "_sdc_extracted_at" then
    recSet rec "_sdc_extracted_at" (.vstr extractionTime)
  else rec

/-- The incremental-filter step of `get_records` (streams.py:442-458)
applied to one (already stamped) record: `.ok true` admits, `.ok false`
skips, `.error` is the `TypeError` Python raises on an unorderable
comparison. -/
def admitsRecord (repKey : Option String) (startVal : Value) (rec : Record) :
    Except String Bool :=
  match repKey with
  | some k =>
      if k ≠ "" ∧ startVal ≠ .vnull then
        let rv := coerceReplicationValue (recGet rec k)
        if rv = .vnull then .ok true
        else
          match pyLe rv (coerceCursorValue startVal) with
          | some le => .ok (!le)
          | none => .error "TypeError: unorderable replication values"
      else .ok true
  | none => .ok true

/-- Boolean form of `admitsRecord` (`true` exactly when the record is
admitted without error). -/
def admitsB (repKey : Option String) (startVal : Value) (rec : Record) : Bool :=
  match admitsRecord repKey startVal rec with
  | .ok true => true
  | _ => false

/-- The record loop of `get_records` (streams.py:437-460): stamp, filter,
yield; a comparison `TypeError` aborts the run. -/
def runRecords (repKey : Option String) (startVal : Value) (extractionTime : String) :
    List Record → Except String (List Record)
  | [] => .ok []
  | r :: rs =>
      let r' := stampRecord repKey extractionTime r
      match admitsRecord repKey startVal r' with
      | .error e => .error e
      | .ok true =>
          match runRecords repKey startVal extractionTime rs with
          | .error e => .error e
          | .ok out => .ok (r' :: out)
      | .ok false => runRecords repKey startVal extractionTime rs

/-- `SmartOpenStream.get_records` (streams.py:429-460): `cursor` is the
value returned by `get_starting_replication_key_value` (only consulted
when the replication key is truthy, mirroring lines 430-432), `recs` the
sequence produced by `_iter_records_raw`, `extractionTime` the single
`datetime.utcnow().isoformat() + "Z"` taken before the loop. -/
def getRecords (repKey : Option String) (cursor : Value) (extractionTime : String)
    (recs : List Record) : Except String (List Record) :=
  runRecords repKey (if strOptTruthy repKey then cursor else .vnull) extractionTime recs

/-- Insertion into the canonical (strictly sorted, duplicate-free) list
representation of a Python `set[str]`. -/
def setInsert : List String → String → List String
  | [], t => [t]
  | x :: xs, t =>
      if strLt t x then t :: x :: xs
      else if t = x then x :: xs
      else x :: setInsert xs t

/-- `set.discard` on the canonical representation. -/
def setDiscard (s : List String) (t : String) : List String :=
  s.filter (fun x => x ≠ t)

/-- `_merge_types` (streams.py:50-55): inserting `number` first discards
`integer`; then the new tag is added unconditionally. -/
def mergeTypes (types : List String) (newType : String) : List String :=
  let types' :=
    if newType = "number" ∧ "integer" ∈ types then setDiscard types "integer" else types
  setInsert types' newType

/-- `_infer_type_from_value` (streams.py:58-75); a `datetime` object (never
produced by the readers modelled here) falls through to the final string
fallback. -/
def inferTypeFromValue (v : Value) : String :=
  match v with
  | .vnull => "null"
  | .vbool _ => "boolean"
  | .vint _ => "integer"
  | .vfloat _ => "number"
  | .vobj => "object"
  | .varr => "array"
  | .vstr s => if (isoparse s).isSome then "date-time" else "string"
  | .vdt _ => "string"

/-- The `"type"` entry of an inferred property: a single tag or a list of
tags, as in the emitted JSON Schema. -/
inductive PropType where
  | single (t : String)
  | union (ts : List String)
  deriving DecidableEq, Repr

/-- One inferred property: its `"type"` entry plus an optional
`"format"` marker. -/
structure PropSchema where
  type : PropType
  format : Option String := none
  deriving DecidableEq, Repr

/-- The inferred schema: the `"properties"` mapping in insertion order and
the `"required"` list (empty list = the `"required"` key is absent); the
constant `"type": "object"` / `"additionalProperties": true` envelope is
left implicit. -/
structure InferredSchema where
  properties : List (String × PropSchema)
  required : List String
  deriving DecidableEq, Repr

/-- Dict assignment on the type map (replace in place or append). -/
def tmSet : List (String × List String) → String → List String → List (String × List String)
  | [], k, ts => [(k, ts)]
  | (k', ts') :: rest, k, ts =>
      if k' = k then (k, ts) :: rest else (k', ts') :: tmSet rest k ts

/-- The type-map accumulation loop of `_infer_schema`
(streams.py:133-137): for each sampled record and each field,
`type_map[k] = _merge_types(type_map.setdefault(k, set()), classify(v))`. -/
def buildTypeMap (samples : List Record) : List (String × List String) :=
  samples.foldl
    (fun m rec =>
      rec.foldl
        (fun m kv =>
          tmSet m kv.1 (mergeTypes ((m.lookup kv.1).getD []) (inferTypeFromValue kv.2)))
        m)
    []

/-- The `integer`+`number` collapse applied inside `_infer_schema`
(streams.py:149-150) before a property is emitted. -/
def collapseIntNum (types : List String) : List String :=
  if "integer" ∈ types ∧ "number" ∈ types then setDiscard types "integer" else types

/-- The per-field emission of `_infer_schema` (streams.py:139-166), from a
canonical (sorted) merged type set to the property descriptor. -/
def propForTypes (types : List String) : PropSchema :=
  if "date-time" ∈ types then
    if "null" ∈ types then ⟨.union ["string", "null"], some "date-time"⟩
    else ⟨.single "string", some "date-time"⟩
  else
    if collapseIntNum types = [] then ⟨.union ["string", "null"], none⟩
    else if "null" ∈ collapseIntNum types then
      match (collapseIntNum types).filter (fun t => t ≠ "null") with
      | [t] => ⟨.union [t, "null"], none⟩
      | _ => ⟨.union (collapseIntNum types), none⟩
    else
      match collapseIntNum types with
      | [t] => ⟨.single t, none⟩
      | _ => ⟨.union (collapseIntNum types), none⟩

/-- The list of type tags mentioned by a property's `"type"` entry. -/
def typeTags (ps : PropSchema) : List String :=
  match ps.type with
  | .single t => [t]
  | .union ts => ts

/-- `true` when the property's `"type"` entry makes the field required
(streams.py:189-195): a single tag, or a tag list without `"null"`. -/
def isRequiredType (ps : PropSchema) : Bool :=
  match ps.type with
  | .single _ => true
  | .union ts => !(ts.contains "null")

/-- The replication-key synthesis of `_infer_schema` (streams.py:168-178):
when the replication key is truthy and absent from the properties, append
it as nullable date-time (for `_sdc_extracted_at`) or nullable string. -/
def synthRepKey (props : List (String × PropSchema)) (repKey : Option String) :
    List (String × PropSchema) :=
  match repKey with
  | some k =>
      if k ≠ "" ∧ (props.lookup k).isNone then
        if k = "_sdc_extracted_at" then
          props ++ [(k, ⟨.union ["string", "null"], some "date-time"⟩)]
        else props ++ [(k, ⟨.union ["string", "null"], none⟩)]
      else props
  | none => props

/-- The primary-key synthesis of `_infer_schema` (streams.py:179-181):
append each declared key absent from the properties as nullable string. -/
def synthPrimaryKeys (props : List (String × PropSchema)) (primaryKeys : List String) :
    List (String × PropSchema) :=
  primaryKeys.foldl
    (fun ps pk =>
      if (ps.lookup pk).isNone then ps ++ [(pk, ⟨.union ["string", "null"], none⟩)] else ps)
    props

/-- The required-fields collection of `_infer_schema` (streams.py:183-195):
every field except `_sdc_extracted_at` whose type entry has no `"null"`. -/
def requiredFields (props : List (String × PropSchema)) : List String :=
  (props.filter (fun kv => decide (kv.1 ≠ "_sdc_extracted_at") && isRequiredType kv.2)).map
    Prod.fst

/-- `_infer_schema` (streams.py:122-206) after sampling: build the type
map, emit a property per field, synthesize the replication-key and
primary-key fields when missing, and collect the required fields (always
excluding `_sdc_extracted_at`). -/
def inferSchema (samples : List Record) (repKey : Option String) (primaryKeys : List String) :
    InferredSchema :=
  let props :=
    synthPrimaryKeys
      (synthRepKey ((buildTypeMap samples).map (fun kv => (kv.1, propForTypes kv.2))) repKey)
      primaryKeys
  ⟨props, requiredFields props⟩

/-- `_infer_schema` draws at most `infer_samples` records from
`_iter_records_raw` (streams.py:123-128). -/
def inferSchemaFromRaw (limit : Nat) (raw : List Record) (repKey : Option String)
    (primaryKeys : List String) : InferredSchema :=
  inferSchema (raw.take limit) repKey primaryKeys

/-- A JSON value, used for the raw explicit schema override carried by the
stream config. -/
inductive Json where
  | null
  | bool (b : Bool)
  | num (q : ℚ)
  | str (s : String)
  | arr (elems : List Json)
  | obj (fields : List (String × Json))

/-- Python truthiness of a JSON value (`if explicit:`). -/
def jsonTruthy : Json → Bool
  | .null => false
  | .bool b => b
  | .num q => q ≠ 0
  | .str s => s ≠ ""
  | .arr l => !l.isEmpty
  | .obj l => !l.isEmpty

/-- What the `schema` property returns: either the config's raw override
object or a freshly inferred schema. -/
inductive SchemaOut where
  | fromConfig (j : Json)
  | inferred (s : InferredSchema)

/-- The `schema` property (streams.py:113-118), instrumented with a flag
recording whether `_infer_schema` (and hence record sampling) was invoked:
`explicit = self.stream_config.get("schema"); if explicit: return explicit;
return self._infer_schema()`. -/
def schemaAccessor (explicit : Option Json) (inferSamples : Nat) (raw : List Record)
    (repKey : Option String) (primaryKeys : List String) : SchemaOut × Bool :=
  match explicit with
  | some j =>
      if jsonTruthy j then (.fromConfig j, false)
      else (.inferred (inferSchemaFromRaw inferSamples raw repKey primaryKeys), true)
  | none => (.inferred (inferSchemaFromRaw inferSamples raw repKey primaryKeys), true)

/-- A regular expression over characters: empty string, one character,
concatenation and alternation (enough to express the literal patterns the
claims exercise, with `re.search` semantics modelled below). -/
inductive Regex where
  | eps
  | char (c : Char)
  | seq (r₁ r₂ : Regex)
  | alt (r₁ r₂ : Regex)
  deriving DecidableEq, Repr

/-- All ways to split a list into two consecutive parts. -/
def splitsAt (cs : List Char) : List (List Char × List Char) :=
  (List.range (cs.length + 1)).map (fun i => (cs.take i, cs.drop i))

/-- Whole-string regex acceptance. -/
def Regex.accept : Regex → List Char → Bool
  | .eps, cs => cs.isEmpty
  | .char c, cs => cs == [c]
  | .seq r₁ r₂, cs => (splitsAt cs).any (fun p => r₁.accept p.1 && r₂.accept p.2)
  | .alt r₁ r₂, cs => r₁.accept cs || r₂.accept cs

/-- Model of Python `re.search(pattern, s)` (external library): the
pattern matches some contiguous part of `s`, at any position. -/
def Regex.search (r : Regex) (s : String) : Bool :=
  let cs := s.toList
  (List.range (cs.length + 1)).any (fun i =>
    (List.range (cs.length + 1 - i)).any (fun n => r.accept ((cs.drop i).take n)))

/-- The regex denoting a literal string. -/
def Regex.ofString (s : String) : Regex :=
  s.toList.foldr (fun c r => .seq (.char c) r) .eps

/-- `path.split('/')[-1]` (streams.py:312): the basename a configured
pattern is matched against — the suffix after the last `'/'`
(the whole string when there is no slash, empty when it ends in one). -/
def basename (path : String) : String :=
  String.mk ((path.toList.reverse.takeWhile (fun c => c ≠ '/')).reverse)

/-- The pattern-filter pass of `_iter_paths` (streams.py:305-319): keep
the paths whose basename the regex `search`-matches. -/
def filterByPattern (r : Regex) (paths : List String) : List String :=
  paths.filter (fun p => r.search (basename p))

/-- `_looks_like_glob` (streams.py:18-19). -/
def looksLikeGlob (uri : String) : Bool :=
  (['*', '?', '[', ']'] : List Char).any (fun c => uri.toList.contains c)

/-- Result of `urllib.parse.urlparse` as used here: scheme, netloc, path. -/
structure ParsedUri where
  scheme : String
  netloc : String
  path : String
  deriving DecidableEq, Repr

/-- Split a character list at the first occurrence of `"://"`. -/
def splitScheme : List Char → Option (List Char × List Char)
  | [] => none
  | ':' :: '/' :: '/' :: rest => some ([], rest)
  | c :: cs => (splitScheme cs).map (fun p => (c :: p.1, p.2))

/-- Model of `urllib.parse.urlparse` (standard library), restricted to the
`scheme://netloc/path` URIs this resolver handles: the scheme precedes the
first `"://"`, the netloc runs to the next `'/'`, the path is the rest
(including that slash). -/
def parseUri (uri : String) : ParsedUri :=
  match splitScheme uri.toList with
  | some (sch, rest) =>
      ⟨String.mk sch, String.mk (rest.takeWhile (fun c => c ≠ '/')),
        String.mk (rest.dropWhile (fun c => c ≠ '/'))⟩
  | none => ⟨"", "", uri⟩

/-- One entry of a detailed directory listing (`listdir(..., detail=True)`). -/
structure DirEntry where
  name : String
  etype : String
  deriving DecidableEq, Repr

/-- The storage backend as seen by `_iter_paths`: the glob expansion's
`.path` values, the detailed directory listing (or the exception it
raises), and the plain basename listing used when the detailed one is
empty. -/
structure Backend where
  globFiles : List String
  listdirDetail : Except String (List DirEntry)
  listdirPlain : List String

/-- `remote_dir` computed from the slash-terminated URI
(streams.py:275-277): the parsed path, `/` when empty, with a trailing
slash stripped. -/
def remoteDirOf (uriSlash : String) : String :=
  let p := (parseUri uriSlash).path
  let p := if p = "" then "/" else p
  if p.toList.getLast? = some '/' then String.mk p.toList.dropLast else p

/-- Reconstruction of a full URI from one detailed listing entry
(streams.py:291-295): ensure a leading slash on the absolute name, then
prepend `scheme://netloc`. -/
def dirEntryUri (uriSlash : String) (e : DirEntry) : String :=
  let parsed := parseUri uriSlash
  let n := if e.name.toList.head? = some '/' then e.name else "/" ++ e.name
  parsed.scheme ++ "://" ++ parsed.netloc ++ n

/-- Reconstruction of a full URI from one plain-listing basename
(streams.py:288-295). -/
def dirPlainUri (uriSlash : String) (bn : String) : String :=
  let parsed := parseUri uriSlash
  let n0 := remoteDirOf uriSlash ++ "/" ++ bn
  let n := if n0.toList.head? = some '/' then n0 else "/" ++ n0
  parsed.scheme ++ "://" ++ parsed.netloc ++ n

/-- The directory branch of `_iter_paths` (streams.py:264-301), given the
URI already slash-terminated: list the directory, keep `file` entries and
rebuild absolute URIs (falling back to the plain listing when the detailed
one is empty); on a listing exception fall back to the (slash-terminated)
URI alone. -/
def dirList (bk : Backend) (uriSlash : String) : List String :=
  match bk.listdirDetail with
  | .ok infos =>
      if infos = [] then
        (bk.listdirPlain.filter (fun bn => bn ≠ "")).map (dirPlainUri uriSlash)
      else
        (infos.filter (fun e => e.etype = "file")).map (dirEntryUri uriSlash)
  | .error _ => [uriSlash]

/-- The pre-filter resource list of the `uri` branches of `_iter_paths`
(streams.py:259-303): the sorted glob expansion, the directory listing
(when a pattern is configured), or the literal URI. -/
def resolveBase (u : String) (spec_pattern : Option Regex) (bk : Backend) : List String :=
  if looksLikeGlob u then List.insertionSort (fun a b => a ≤ b) bk.globFiles
  else
    match spec_pattern with
    | some _ => dirList bk (if u.toList.getLast? = some '/' then u else u ++ "/")
    | none => [u]

/-- The `uri`-based part of `_iter_paths` (streams.py:252-319): glob
expansion (sorted), directory listing (when a pattern is configured), or
the literal URI; then the pattern filter. -/
def resolveFromUri (spec_uri : Option String) (spec_pattern : Option Regex) (bk : Backend) :
    Except String (List String) :=
  match spec_uri with
  | none => .error "Stream missing uri or uris"
  | some u =>
      if u = "" then .error "Stream missing uri or uris"
      else
        match spec_pattern with
        | some r => .ok (filterByPattern r (resolveBase u spec_pattern bk))
        | none => .ok (resolveBase u spec_pattern bk)

/-- A stream's location spec: `uris`, `uri` and the compiled filename
pattern. `pattern := none` also models a falsy (empty) pattern string,
which both truthiness checks in the source treat as absent. -/
structure StreamSpec where
  uris : Option (List String) := none
  uri : Option String := none
  pattern : Option Regex := none

/-- Truthiness of the optional `uris` list (`if uris:`). -/
def listOptTruthy : Option (List String) → Bool
  | some us => !us.isEmpty
  | none => false

/-- `_iter_paths` (streams.py:242-323), minus the per-run memoization
(the function is pure, so the cached and recomputed results coincide):
a truthy `uris` list is returned verbatim, otherwise the `uri` is
resolved. -/
def iterPaths (spec : StreamSpec) (bk : Backend) : Except String (List String) :=
  match spec.uris with
  | some us => if us = [] then resolveFromUri spec.uri spec.pattern bk else .ok us
  | none => resolveFromUri spec.uri spec.pattern bk

/-! ## Supporting lemmas -/

theorem mem_setInsert (a b : String) (s : List String) :
    a ∈ setInsert s b ↔ a = b ∨ a ∈ s := by
  induction s with
  | nil => simp [setInsert]
  | cons x xs ih =>
    simp only [setInsert]
    split
    · simp [List.mem_cons]
    · split
      · next heq =>
        subst heq
        simp [List.mem_cons]
      · simp only [List.mem_cons, ih]
        tauto

theorem not_mem_setDiscard (s : List String) (t : String) : t ∉ setDiscard s t := by
  intro h
  have := (List.mem_filter.mp h).2
  simp at this

theorem mem_of_mem_setDiscard {a t : String} {s : List String}
    (h : a ∈ setDiscard s t) : a ∈ s :=
  (List.mem_filter.mp h).1

theorem collapseIntNum_not_both (types : List String) :
    ¬("integer" ∈ collapseIntNum types ∧ "number" ∈ collapseIntNum types) := by
  unfold collapseIntNum
  split
  · rintro ⟨hi, -⟩
    exact not_mem_setDiscard types "integer" hi
  · next h => exact h

theorem propForTypes_not_both (types : List String) :
    ¬("integer" ∈ typeTags (propForTypes types) ∧ "number" ∈ typeTags (propForTypes types)) := by
  unfold propForTypes
  split
  · split <;> simp [typeTags]
  · have h := collapseIntNum_not_both types
    split
    · simp [typeTags]
    · split
      · split
        · next t heq =>
          simp only [typeTags, List.mem_cons, List.not_mem_nil, or_false]
          rintro ⟨h1, h2⟩
          rcases h1 with h1 | h1
          · rcases h2 with h2 | h2
            · exact absurd (h1.trans h2.symm) (by decide)
            · exact absurd h2 (by decide)
          · exact absurd h1 (by decide)
        · simpa [typeTags] using h
      · split
        · next t heq =>
          simp only [typeTags, List.mem_cons, List.not_mem_nil, or_false]
          rintro ⟨h1, h2⟩
          simp_all
        · simpa [typeTags] using h

theorem lookup_cons_self {α : Type} (k : String) (v : α) (l : List (String × α)) :
    List.lookup k ((k, v) :: l) = some v := by
  simp [List.lookup]

theorem lookup_cons_ne {α : Type} {k k' : String} (v : α) (l : List (String × α))
    (h : k ≠ k') : List.lookup k ((k', v) :: l) = List.lookup k l := by
  simp only [List.lookup]
  rw [beq_eq_false_iff_ne.mpr h]

theorem lookup_recSet (r : Record) (k : String) (v : Value) :
    (recSet r k v).lookup k = some v := by
  induction r with
  | nil => simp [recSet, List.lookup]
  | cons p rest ih =>
    rcases p with ⟨k', v'⟩
    simp only [recSet]
    split
    · next heq =>
      subst heq
      exact lookup_cons_self _ _ _
    · next hne =>
      rw [lookup_cons_ne v' _ (fun hh => hne hh.symm)]
      exact ih

theorem stampRecord_lookup (et : String) (r : Record) :
    (stampRecord (some "_sdc_extracted_at") et r).lookup "_sdc_extracted_at" =
      some (.vstr et) := by
  simp only [stampRecord, if_pos rfl]
  exact lookup_recSet r _ _

theorem runRecords_ok (repKey : Option String) (sv : Value) (et : String) :
    ∀ recs out : List Record, runRecords repKey sv et recs = .ok out →
      out = (recs.map (stampRecord repKey et)).filter (admitsB repKey sv) := by
  intro recs
  induction recs with
  | nil =>
    intro out h
    simp only [runRecords] at h
    cases h
    simp
  | cons r rs ih =>
    intro out h
    simp only [runRecords] at h
    rcases hadm : admitsRecord repKey sv (stampRecord repKey et r) with e | b
    · rw [hadm] at h
      cases h
    · rw [hadm] at h
      cases b
      · rw [List.map_cons, List.filter_cons, if_neg (by simp [admitsB, hadm])]
        exact ih out h
      · rcases hrec : runRecords repKey sv et rs with e | out' <;> rw [hrec] at h
        · cases h
        · cases h
          rw [List.map_cons, List.filter_cons, if_pos (by simp [admitsB, hadm])]
          rw [ih out' hrec]

theorem mem_runRecords_lookup_sdc (sv : Value) (et : String) (recs out : List Record)
    (h : runRecords (some "_sdc_extracted_at") sv et recs = .ok out) :
    ∀ r ∈ out, r.lookup "_sdc_extracted_at" = some (.vstr et) := by
  intro r hr
  rw [runRecords_ok _ _ _ _ _ h] at hr
  have hr' := List.mem_of_mem_filter hr
  rcases List.mem_map.mp hr' with ⟨r0, -, hr0⟩
  rw [← hr0]
  exact stampRecord_lookup et r0

theorem tmSet_lookup_ne {k k' : String} (ts : List String)
    (m : List (String × List String)) (hne : k ≠ k') :
    (tmSet m k' ts).lookup k = m.lookup k := by
  induction m with
  | nil =>
    simp only [tmSet]
    rw [lookup_cons_ne ts _ hne]
  | cons p rest ih =>
    rcases p with ⟨k0, ts0⟩
    simp only [tmSet]
    split
    · next heq =>
      subst heq
      rw [lookup_cons_ne ts _ hne, lookup_cons_ne ts0 _ hne]
    · by_cases hk : k = k0
      · subst hk
        rw [lookup_cons_self, lookup_cons_self]
      · rw [lookup_cons_ne ts0 _ hk, lookup_cons_ne ts0 _ hk]
        exact ih

theorem buildTypeMap_lookup_none (k : String) (samples : List Record)
    (h : ∀ r ∈ samples, k ∉ r.map Prod.fst) :
    (buildTypeMap samples).lookup k = none := by
  have step : ∀ (rec : Record) (m : List (String × List String)), k ∉ rec.map Prod.fst →
      m.lookup k = none →
      (rec.foldl (fun m kv =>
          tmSet m kv.1 (mergeTypes ((m.lookup kv.1).getD []) (inferTypeFromValue kv.2))) m).lookup
        k = none := by
    intro rec
    induction rec with
    | nil => intro m _ hm; exact hm
    | cons kv rest ih =>
      intro m hk hm
      simp only [List.map_cons, List.mem_cons] at hk
      push_neg at hk
      simp only [List.foldl_cons]
      exact ih _ hk.2 (by rw [tmSet_lookup_ne _ _ hk.1]; exact hm)
  unfold buildTypeMap
  have general : ∀ (ss : List Record) (m : List (String × List String)),
      (∀ r ∈ ss, k ∉ r.map Prod.fst) → m.lookup k = none →
      (ss.foldl (fun m rec => rec.foldl (fun m kv =>
          tmSet m kv.1 (mergeTypes ((m.lookup kv.1).getD []) (inferTypeFromValue kv.2))) m)
          m).lookup k = none := by
    intro ss
    induction ss with
    | nil => intro m _ hm; exact hm
    | cons r rs ih =>
      intro m hs hm
      simp only [List.foldl_cons]
      exact ih _ (fun r' hr' => hs r' (List.mem_cons_of_mem _ hr'))
        (step r m (hs r (List.mem_cons_self _ _)) hm)
  exact general samples [] h rfl

theorem lookup_map_propForTypes (k : String) (tm : List (String × List String))
    (h : tm.lookup k = none) :
    ((tm.map (fun kv => (kv.1, propForTypes kv.2))).lookup k) = none := by
  induction tm with
  | nil => simp
  | cons p rest ih =>
    rcases p with ⟨k0, ts0⟩
    by_cases hk : k = k0
    · subst hk
      rw [lookup_cons_self] at h
      cases h
    · rw [lookup_cons_ne ts0 _ hk] at h
      simp only [List.map_cons]
      rw [lookup_cons_ne _ _ hk]
      exact ih h

theorem lookup_append_of_none {α : Type} (l₁ l₂ : List (String × α)) (k : String)
    (h : l₁.lookup k = none) : (l₁ ++ l₂).lookup k = l₂.lookup k := by
  induction l₁ with
  | nil => simp
  | cons p rest ih =>
    rcases p with ⟨k0, v0⟩
    by_cases hk : k = k0
    · subst hk
      rw [lookup_cons_self] at h
      cases h
    · rw [lookup_cons_ne v0 _ hk] at h
      rw [List.cons_append, lookup_cons_ne v0 _ hk]
      exact ih h

theorem lookup_append_of_some {α : Type} (l₁ l₂ : List (String × α)) (k : String) (v : α)
    (h : l₁.lookup k = some v) : (l₁ ++ l₂).lookup k = some v := by
  induction l₁ with
  | nil => cases h
  | cons p rest ih =>
    rcases p with ⟨k0, v0⟩
    by_cases hk : k = k0
    · subst hk
      rw [lookup_cons_self] at h
      rw [List.cons_append, lookup_cons_self]
      exact h
    · rw [lookup_cons_ne v0 _ hk] at h
      rw [List.cons_append, lookup_cons_ne v0 _ hk]
      exact ih h

theorem synthPrimaryKeys_lookup_some (pks : List String) (ps : List (String × PropSchema))
    (k : String) (v : PropSchema) (h : ps.lookup k = some v) :
    (synthPrimaryKeys ps pks).lookup k = some v := by
  induction pks generalizing ps with
  | nil => exact h
  | cons pk rest ih =>
    simp only [synthPrimaryKeys, List.foldl_cons]
    rw [show (List.foldl _ _ rest : List (String × PropSchema)) =
        synthPrimaryKeys (if (ps.lookup pk).isNone then
          ps ++ [(pk, ⟨.union ["string", "null"], none⟩)] else ps) rest from rfl]
    apply ih
    split
    · exact lookup_append_of_some _ _ _ _ h
    · exact h

theorem mem_synthPrimaryKeys (pks : List String) (ps : List (String × PropSchema))
    (kv : String × PropSchema) (h : kv ∈ synthPrimaryKeys ps pks) :
    kv ∈ ps ∨ kv.2 = ⟨.union ["string", "null"], none⟩ := by
  induction pks generalizing ps with
  | nil => exact Or.inl h
  | cons pk rest ih =>
    simp only [synthPrimaryKeys, List.foldl_cons] at h
    rw [show (List.foldl _ _ rest : List (String × PropSchema)) =
        synthPrimaryKeys (if (ps.lookup pk).isNone then
          ps ++ [(pk, ⟨.union ["string", "null"], none⟩)] else ps) rest from rfl] at h
    rcases ih _ h with h' | h'
    · split at h'
      · rcases List.mem_append.mp h' with h'' | h''
        · exact Or.inl h''
        · simp only [List.mem_singleton] at h''
          right
          rw [h'']
      · exact Or.inl h'
    · exact Or.inr h'

theorem mem_synthRepKey (ps : List (String × PropSchema)) (rk : Option String)
    (kv : String × PropSchema) (h : kv ∈ synthRepKey ps rk) :
    kv ∈ ps ∨ kv.2 = ⟨.union ["string", "null"], some "date-time"⟩ ∨
      kv.2 = ⟨.union ["string", "null"], none⟩ := by
  rcases rk with - | k
  · exact Or.inl h
  · simp only [synthRepKey] at h
    split at h
    · split at h
      · rcases List.mem_append.mp h with h2 | h2
        · exact Or.inl h2
        · simp only [List.mem_singleton] at h2
          right; left
          rw [h2]
      · rcases List.mem_append.mp h with h2 | h2
        · exact Or.inl h2
        · simp only [List.mem_singleton] at h2
          right; right
          rw [h2]
    · exact Or.inl h

theorem inferSchema_prop_shape (samples : List Record) (rk : Option String)
    (pks : List String) (kv : String × PropSchema)
    (h : kv ∈ (inferSchema samples rk pks).properties) :
    (∃ ts, kv.2 = propForTypes ts) ∨
      kv.2 = ⟨.union ["string", "null"], some "date-time"⟩ ∨
      kv.2 = ⟨.union ["string", "null"], none⟩ := by
  simp only [inferSchema] at h
  rcases mem_synthPrimaryKeys _ _ _ h with h1 | h1
  · rcases mem_synthRepKey _ _ _ h1 with h2 | h2
    · rcases List.mem_map.mp h2 with ⟨p, -, hp⟩
      exact Or.inl ⟨p.2, by rw [← hp]⟩
    · exact Or.inr h2
  · exact Or.inr (Or.inr h1)

/-! ## Claim C2 — cursor coercion -/

/-- C2 (counterexample): the claim that a string cursor is coerced
identically to a record's replication-key string fails at the numeric
string "42": the record side coerces it to the integer 42, while the
cursor side keeps it as the plain string "42"; comparing a numerically
coerced record value against it is then a type error, not a numeric
comparison. -/
theorem c2_counterexample :
    coerceCursorValue (.vstr "42") = .vstr "42" ∧
      coerceReplicationValue (.vstr "42") = .vint 42 ∧
      admitsRecord (some "k") (.vstr "42") [("k", .vstr "100")] =
        .error "TypeError: unorderable replication values" :=
  ⟨rfl, rfl, rfl⟩

/-- C2 (amended): a string cursor is only attempted as an ISO datetime;
when that parse succeeds the cursor and the record side agree, but when it
fails the cursor stays a plain string, with no numeric fallback (so a
numeric string cursor is never compared numerically). -/
theorem c2_cursor_coercion_amended (s : String) :
    (∀ t, isoparse s = some t →
        coerceCursorValue (.vstr s) = .vdt t ∧ coerceReplicationValue (.vstr s) = .vdt t) ∧
      (isoparse s = none → coerceCursorValue (.vstr s) = .vstr s) := by
  constructor
  · intro t ht
    constructor
    · simp [coerceCursorValue, ht]
    · simp [coerceReplicationValue, ht]
  · intro h
    simp [coerceCursorValue, h]

theorem c2_witness :
    (coerceCursorValue (.vstr "2021-01-02T03:04:05") = .vdt 78212640662 ∧
        coerceReplicationValue (.vstr "2021-01-02T03:04:05") = .vdt 78212640662) ∧
      coerceCursorValue (.vstr "42") = .vstr "42" :=
  ⟨(c2_cursor_coercion_amended "2021-01-02T03:04:05").1 78212640662 rfl,
    (c2_cursor_coercion_amended "42").2 rfl⟩

/-! ## Claim C3 — integer/number merging -/

/-- C3 (counterexample): the claim that `merge(S, "integer")` is a no-op
on a set already containing `"number"` fails: `_merge_types` adds the tag
unconditionally, so the merged set contains both `"integer"` and
`"number"`. -/
theorem c3_counterexample :
    mergeTypes ["number"] "integer" = ["integer", "number"] ∧
      "integer" ∈ mergeTypes ["number"] "integer" ∧
      mergeTypes ["number"] "integer" ≠ ["number"] :=
  ⟨rfl, by decide, by decide⟩

/-- C3 (amended): merging `"number"` does discard `"integer"` and add
`"number"`; but merging `"integer"` into a set containing `"number"`
adds `"integer"`, so both tags co-occur in the merged set.  The
co-occurrence is only collapsed downstream, inside `_infer_schema`, so no
emitted schema property ever lists both tags. -/
theorem c3_merge_types_amended :
    (∀ S : List String,
        "number" ∈ mergeTypes S "number" ∧ "integer" ∉ mergeTypes S "number") ∧
      (∀ S : List String, "number" ∈ S →
          "integer" ∈ mergeTypes S "integer" ∧ "number" ∈ mergeTypes S "integer") ∧
      (∀ (samples : List Record) (rk : Option String) (pks : List String)
          (kv : String × PropSchema), kv ∈ (inferSchema samples rk pks).properties →
          ¬("integer" ∈ typeTags kv.2 ∧ "number" ∈ typeTags kv.2)) := by
  refine ⟨fun S => ⟨?_, ?_⟩, fun S hS => ⟨?_, ?_⟩, ?_⟩
  · exact (mem_setInsert _ _ _).mpr (Or.inl rfl)
  · intro hmem
    rcases (mem_setInsert _ _ _).mp hmem with h | h
    · exact absurd h (by decide)
    · split at h
      · exact not_mem_setDiscard _ _ h
      · next hcond => exact hcond ⟨rfl, h⟩
  · unfold mergeTypes
    rw [if_neg (by simp)]
    exact (mem_setInsert _ _ _).mpr (Or.inl rfl)
  · unfold mergeTypes
    rw [if_neg (by simp)]
    exact (mem_setInsert _ _ _).mpr (Or.inr hS)
  · intro samples rk pks kv hkv
    rcases inferSchema_prop_shape samples rk pks kv hkv with ⟨ts, hts⟩ | h | h
    · rw [hts]
      exact propForTypes_not_both ts
    · rw [h]
      rintro ⟨h1, -⟩
      exact absurd h1 (by decide)
    · rw [h]
      rintro ⟨h1, -⟩
      exact absurd h1 (by decide)

theorem c3_witness :
    "integer" ∈ mergeTypes ["number"] "integer" ∧
      "number" ∈ mergeTypes ["number"] "integer" :=
  c3_merge_types_amended.2.1 ["number"] (by decide)

/-! ## Claim C5 — explicit schema override -/

/-- C5 (counterexample): the claim that an explicit schema override is
always returned unchanged with no inference fails at the empty (falsy)
override object: `if explicit:` rejects it and `_infer_schema` runs. -/
theorem c5_counterexample :
    schemaAccessor (some (.obj [])) 2000 [] none [] =
      (.inferred ⟨[], []⟩, true) :=
  rfl

/-- C5 (amended): for every StreamSpec carrying a truthy (non-empty)
explicit schema override, the `schema` accessor returns that object
unchanged and schema inference — hence record sampling — is never
invoked; a falsy override (such as the empty object) instead triggers
inference. -/
theorem c5_explicit_schema_amended (j : Json) (limit : Nat) (raw : List Record)
    (rk : Option String) (pks : List String) (h : jsonTruthy j = true) :
    schemaAccessor (some j) limit raw rk pks = (.fromConfig j, false) := by
  simp [schemaAccessor, h]

theorem c5_witness :
    schemaAccessor (some (.obj [("type", .str "object")])) 2000
        [[("a", .vint 1)]] none [] =
      (.fromConfig (.obj [("type", .str "object")]), false) :=
  c5_explicit_schema_amended _ 2000 [[("a", .vint 1)]] none [] rfl

/-! ## Claim C1 — incremental filtering in get_records -/

theorem pyLe_vnull_left (x : Value) : pyLe .vnull x = none := by
  cases x <;> rfl

theorem pyLe_vnull_right (x : Value) : pyLe x .vnull = none := by
  cases x <;> rfl

/-- C1: with a truthy replication key and any run of `get_records` that
completes, the yielded records are exactly the stamped records admitted by
the filter; a record whose coerced key value compares against the (coerced)
cursor is admitted iff it is strictly greater; a record whose key value is
absent or coerces to null is always admitted; and with no cursor (`None`)
every record is admitted. -/
theorem c1_incremental_filter (k : String) (hk : k ≠ "") (cursor : Value) (et : String)
    (recs out : List Record) (hrun : getRecords (some k) cursor et recs = .ok out) :
    out = (recs.map (stampRecord (some k) et)).filter (admitsB (some k) cursor) ∧
      (∀ (rec : Record) (b : Bool),
        pyGt (coerceReplicationValue (recGet rec k)) (coerceCursorValue cursor) = some b →
        admitsB (some k) cursor rec = b) ∧
      (∀ rec : Record, coerceReplicationValue (recGet rec k) = .vnull →
        admitsB (some k) cursor rec = true) ∧
      (cursor = .vnull → out = recs.map (stampRecord (some k) et)) := by
  have hstart : (if strOptTruthy (some k) then cursor else .vnull) = cursor := by
    simp [strOptTruthy, hk]
  have hrun' : runRecords (some k) cursor et recs = .ok out := by
    simpa only [getRecords, hstart] using hrun
  have hA := runRecords_ok (some k) cursor et recs out hrun'
  refine ⟨hA, ?_, ?_, ?_⟩
  · intro rec b hgt
    rcases hle : pyLe (coerceReplicationValue (recGet rec k)) (coerceCursorValue cursor)
      with - | le
    · rw [pyGt, hle] at hgt
      cases hgt
    · rw [pyGt, hle] at hgt
      simp at hgt
      subst hgt
      have hrv : coerceReplicationValue (recGet rec k) ≠ .vnull := by
        intro hnull
        rw [hnull, pyLe_vnull_left] at hle
        cases hle
      have hc : cursor ≠ .vnull := by
        intro hnull
        rw [hnull] at hle
        rw [show coerceCursorValue .vnull = .vnull from rfl, pyLe_vnull_right] at hle
        cases hle
      have hrec : admitsRecord (some k) cursor rec = .ok (!(!b)) := by
        simp only [admitsRecord, if_pos (And.intro hk hc), if_neg hrv, hle]
      cases b <;> simp [admitsB, hrec]
  · intro rec hnull
    have hrec : admitsRecord (some k) cursor rec = .ok true := by
      simp [admitsRecord, hnull]
    simp [admitsB, hrec]
  · intro hc
    rw [hA]
    have hall : ∀ r : Record, admitsB (some k) cursor r = true := by
      intro r
      simp [admitsB, admitsRecord, hc]
    rw [List.filter_eq_self.mpr (fun a _ => hall a)]

theorem c1_witness :
    ([[("id", Value.vstr "7")], [("id", Value.vnull)]] : List Record) =
      (([[("id", Value.vstr "7")], [("id", Value.vstr "3")],
          [("id", Value.vnull)]] : List Record).map (stampRecord (some "id") "T")).filter
        (admitsB (some "id") (.vint 5)) :=
  (c1_incremental_filter "id" (by decide) (.vint 5) "T"
      [[("id", .vstr "7")], [("id", .vstr "3")], [("id", .vnull)]]
      [[("id", .vstr "7")], [("id", .vnull)]] rfl).1

/-! ## Claim C8 — the synthetic extraction-timestamp field -/

theorem sdc_not_in_requiredFields (props : List (String × PropSchema)) :
    "_sdc_extracted_at" ∉ requiredFields props := by
  intro h
  rcases List.mem_map.mp h with ⟨kv, hkv, hfst⟩
  have h2 := (List.mem_filter.mp hkv).2
  rw [Bool.and_eq_true] at h2
  exact (of_decide_eq_true h2.1) hfst

/-- C8: with replication key `_sdc_extracted_at`, every record yielded by
`get_records` carries that field populated with the extraction timestamp;
the field never appears in the inferred schema's required list; and when
it is absent from every sampled record it is synthesized into the
properties as a nullable date-time-formatted string. -/
theorem c8_sdc_extracted_at :
    (∀ (cursor : Value) (et : String) (recs out : List Record),
        getRecords (some "_sdc_extracted_at") cursor et recs = .ok out →
        ∀ r ∈ out, r.lookup "_sdc_extracted_at" = some (.vstr et)) ∧
      (∀ (samples : List Record) (rk : Option String) (pks : List String),
        "_sdc_extracted_at" ∉ (inferSchema samples rk pks).required) ∧
      (∀ (samples : List Record) (pks : List String),
        (∀ r ∈ samples, "_sdc_extracted_at" ∉ r.map Prod.fst) →
        ((inferSchema samples (some "_sdc_extracted_at") pks).properties.lookup
            "_sdc_extracted_at") =
          some ⟨.union ["string", "null"], some "date-time"⟩) := by
  refine ⟨?_, ?_, ?_⟩
  · intro cursor et recs out hrun
    exact mem_runRecords_lookup_sdc _ et recs out hrun
  · intro samples rk pks
    exact sdc_not_in_requiredFields _
  · intro samples pks habs
    have h0 : (buildTypeMap samples).lookup "_sdc_extracted_at" = none :=
      buildTypeMap_lookup_none _ _ habs
    have h1 : ((buildTypeMap samples).map (fun kv => (kv.1, propForTypes kv.2))).lookup
        "_sdc_extracted_at" = none := lookup_map_propForTypes _ _ h0
    simp only [inferSchema]
    apply synthPrimaryKeys_lookup_some
    simp only [synthRepKey]
    rw [if_pos ⟨by decide, by rw [h1]; rfl⟩]
    split
    · rw [lookup_append_of_none _ _ _ h1]
      exact lookup_cons_self _ _ _
    · next hne2 => exact absurd trivial hne2

theorem c8_witness :
    (([("x", Value.vint 1), ("_sdc_extracted_at", Value.vstr "E")] : Record).lookup
        "_sdc_extracted_at" = some (.vstr "E")) ∧
      ((inferSchema [] (some "_sdc_extracted_at") []).properties.lookup "_sdc_extracted_at" =
        some ⟨.union ["string", "null"], some "date-time"⟩) :=
  ⟨c8_sdc_extracted_at.1 .vnull "E" [[("x", .vint 1)]]
      [[("x", .vint 1), ("_sdc_extracted_at", .vstr "E")]] rfl _ (by simp),
    c8_sdc_extracted_at.2.2 [] [] (by simp)⟩

/-! ## Claim C9 — extraction timestamp computed once per call -/

/-- C9: within one `get_records` call with replication key
`_sdc_extracted_at`, every emitted record carries the one extraction
timestamp taken before the loop, so any two emitted records carry the
identical value. -/
theorem c9_single_extraction_timestamp (cursor : Value) (et : String)
    (recs out : List Record)
    (hrun : getRecords (some "_sdc_extracted_at") cursor et recs = .ok out) :
    (∀ r ∈ out, r.lookup "_sdc_extracted_at" = some (.vstr et)) ∧
      ∀ r1 ∈ out, ∀ r2 ∈ out,
        r1.lookup "_sdc_extracted_at" = r2.lookup "_sdc_extracted_at" := by
  have hmem := mem_runRecords_lookup_sdc _ et recs out hrun
  exact ⟨hmem, fun r1 h1 r2 h2 => (hmem r1 h1).trans (hmem r2 h2).symm⟩

theorem c9_witness :
    ([("a", Value.vint 1), ("_sdc_extracted_at", Value.vstr "E")] : Record).lookup
        "_sdc_extracted_at" =
      ([("b", Value.vint 2), ("_sdc_extracted_at", Value.vstr "E")] : Record).lookup
        "_sdc_extracted_at" :=
  (c9_single_extraction_timestamp .vnull "E" [[("a", .vint 1)], [("b", .vint 2)]]
      [[("a", .vint 1), ("_sdc_extracted_at", .vstr "E")],
        [("b", .vint 2), ("_sdc_extracted_at", .vstr "E")]] rfl).2
    _ (by simp) _ (by simp)

/-! ## Path-resolution lemmas -/

theorem iterPaths_eq_resolve (spec : StreamSpec) (bk : Backend)
    (hu : listOptTruthy spec.uris = false) :
    iterPaths spec bk = resolveFromUri spec.uri spec.pattern bk := by
  rcases hspec : spec.uris with - | us
  · simp [iterPaths, hspec]
  · have hus : us = [] := by
      rw [hspec] at hu
      simpa [listOptTruthy, List.isEmpty_iff] using hu
    simp [iterPaths, hspec, hus]

theorem resolveFromUri_pattern_ok (uriOpt : Option String) (r : Regex) (bk : Backend)
    (paths : List String) (h : resolveFromUri uriOpt (some r) bk = .ok paths) :
    ∃ base, paths = filterByPattern r base := by
  rcases uriOpt with - | u
  · cases h
  · simp only [resolveFromUri] at h
    split at h
    · cases h
    · exact ⟨_, (by cases h; rfl)⟩

theorem mem_filterByPattern {r : Regex} {l : List String} {p : String}
    (h : p ∈ filterByPattern r l) : r.search (basename p) = true :=
  (List.mem_filter.mp h).2

/-! ## Claim C4 — the pattern filter and the explicit-uris branch -/

/-- C4 (counterexample): with an explicit `uris` list the pattern filter
is not applied: a configured `csv` pattern does not remove `a.txt`, whose
basename the pattern does not match. -/
theorem c4_counterexample :
    iterPaths ⟨some ["a.txt"], none, some (Regex.ofString "csv")⟩ ⟨[], .ok [], []⟩ =
        .ok ["a.txt"] ∧
      (Regex.ofString "csv").search (basename "a.txt") = false :=
  ⟨rfl, rfl⟩

/-- C4 (amended): in every `uri`-based resolution branch (glob, directory,
literal) the resolved result is exactly the pattern filter of that
branch's resource list — and the filter keeps precisely the resources
whose basename the regex matches, in stable relative order (a sublist of
the pre-filter list); but the explicit-`uris` branch returns the
configured list verbatim, unfiltered. -/
theorem c4_pattern_filter_amended (spec : StreamSpec) (bk : Backend) (r : Regex) :
    (∀ us : List String, us ≠ [] →
        iterPaths ⟨some us, spec.uri, spec.pattern⟩ bk = .ok us) ∧
      (∀ u : String, listOptTruthy spec.uris = false → spec.pattern = some r →
        spec.uri = some u → u ≠ "" →
        iterPaths spec bk = .ok (filterByPattern r (resolveBase u (some r) bk))) ∧
      (∀ base : List String,
        (∀ p, p ∈ filterByPattern r base ↔ p ∈ base ∧ r.search (basename p) = true) ∧
          (filterByPattern r base).Sublist base) := by
  refine ⟨?_, ?_, ?_⟩
  · intro us hus
    simp [iterPaths, hus]
  · intro u hu hp huri hne
    rw [iterPaths_eq_resolve spec bk hu, huri, hp]
    simp only [resolveFromUri, if_neg hne]
  · intro base
    exact ⟨fun p => List.mem_filter, List.filter_sublist _⟩

theorem c4_witness :
    (iterPaths ⟨some ["a.txt"], none, some (Regex.ofString "csv")⟩
        ⟨[], .ok [], []⟩ = .ok ["a.txt"]) ∧
      (iterPaths ⟨none, some "sftp://h/d", some (Regex.ofString "csv")⟩
          ⟨[], .ok [⟨"/d/b.csv", "file"⟩, ⟨"/d/x.txt", "file"⟩], []⟩ =
        .ok (filterByPattern (Regex.ofString "csv")
          (resolveBase "sftp://h/d" (some (Regex.ofString "csv"))
            ⟨[], .ok [⟨"/d/b.csv", "file"⟩, ⟨"/d/x.txt", "file"⟩], []⟩))) ∧
      ("sftp://h/d/b.csv" ∈
          filterByPattern (Regex.ofString "csv")
            ["sftp://h/d/b.csv", "sftp://h/d/x.txt"] ↔
        "sftp://h/d/b.csv" ∈ (["sftp://h/d/b.csv", "sftp://h/d/x.txt"] : List String) ∧
          (Regex.ofString "csv").search (basename "sftp://h/d/b.csv") = true) :=
  ⟨(c4_pattern_filter_amended ⟨none, none, some (Regex.ofString "csv")⟩
        ⟨[], .ok [], []⟩ (Regex.ofString "csv")).1 ["a.txt"] (by simp),
    (c4_pattern_filter_amended ⟨none, some "sftp://h/d", some (Regex.ofString "csv")⟩
        ⟨[], .ok [⟨"/d/b.csv", "file"⟩, ⟨"/d/x.txt", "file"⟩], []⟩
        (Regex.ofString "csv")).2.1 "sftp://h/d" rfl rfl rfl (by decide),
    ((c4_pattern_filter_amended ⟨none, none, none⟩ ⟨[], .ok [], []⟩
          (Regex.ofString "csv")).2.2
        ["sftp://h/d/b.csv", "sftp://h/d/x.txt"]).1 "sftp://h/d/b.csv"⟩

/-! ## Claim C6 — listing-failure fallback -/

/-- C6 (counterexample): the claim that a directory-listing failure falls
back to exactly the literal location string as configured fails: the
location gets a trailing slash appended first, and the pattern filter then
runs against the fallback's (empty) basename — here removing it, so the
resolved list is empty rather than the configured literal. -/
theorem c6_counterexample :
    iterPaths ⟨none, some "sftp://h/dir", some (Regex.ofString "csv")⟩
        ⟨[], .error "connection failed", []⟩ = .ok [] ∧
      (Except.ok ([] : List String) : Except String (List String)) ≠
        .ok ["sftp://h/dir"] :=
  ⟨rfl, by simp⟩

/-- C6 (amended): when the directory branch is taken and the listing
raises, resolution does not raise; it falls back to the location string
with a trailing slash ensured (not necessarily the string as configured),
and the filename-pattern filter is still applied to that sole fallback
path. -/
theorem c6_listing_failure_fallback_amended (spec : StreamSpec) (bk : Backend)
    (u : String) (r : Regex) (e : String)
    (hu : listOptTruthy spec.uris = false) (huri : spec.uri = some u) (hne : u ≠ "")
    (hglob : looksLikeGlob u = false) (hp : spec.pattern = some r)
    (hl : bk.listdirDetail = .error e) :
    iterPaths spec bk =
      .ok (filterByPattern r
        [if u.toList.getLast? = some '/' then u else u ++ "/"]) := by
  rw [iterPaths_eq_resolve spec bk hu, huri, hp]
  simp only [resolveFromUri, resolveBase, if_neg hne, hglob, Bool.false_eq_true, if_false,
    dirList, hl]

theorem c6_witness :
    iterPaths ⟨none, some "sftp://h/dir", some (Regex.ofString "csv")⟩
        ⟨[], .error "connection failed", []⟩ =
      .ok (filterByPattern (Regex.ofString "csv") ["sftp://h/dir/"]) :=
  c6_listing_failure_fallback_amended
    ⟨none, some "sftp://h/dir", some (Regex.ofString "csv")⟩
    ⟨[], .error "connection failed", []⟩ "sftp://h/dir" (Regex.ofString "csv")
    "connection failed" rfl rfl (by decide) rfl rfl rfl

/-! ## Claim C7 — ordering of directory-branch resolution -/

/-- C7 (counterexample): the directory branch resolves files in the order
the backend listing returns them, not lexicographically sorted: a listing
returning `b.csv` before `a.csv` yields the paths in that order, which is
not nondecreasing in the code-point order Python `sorted` uses. -/
theorem c7_counterexample :
    iterPaths ⟨none, some "sftp://h/d", some (Regex.ofString "csv")⟩
        ⟨[], .ok [⟨"/d/b.csv", "file"⟩, ⟨"/d/a.csv", "file"⟩], []⟩ =
        .ok ["sftp://h/d/b.csv", "sftp://h/d/a.csv"] ∧
      ¬ List.Pairwise (fun a b => strLt b a = false)
          ["sftp://h/d/b.csv", "sftp://h/d/a.csv"] :=
  ⟨rfl, by decide⟩

/-- C7 (amended): only the glob branch sorts lexicographically; the
directory-listing branch preserves the backend listing's relative order —
its result is a sublist of the listing's entries reconstructed in listing
order. -/
theorem c7_directory_order_amended (spec : StreamSpec) (bk : Backend) (u : String)
    (r : Regex) (infos : List DirEntry) (paths : List String)
    (hu : listOptTruthy spec.uris = false) (huri : spec.uri = some u) (hne : u ≠ "")
    (hp : spec.pattern = some r) :
    (looksLikeGlob u = false → bk.listdirDetail = .ok infos → infos ≠ [] →
        iterPaths spec bk = .ok paths →
        paths.Sublist (infos.map
          (dirEntryUri (if u.toList.getLast? = some '/' then u else u ++ "/")))) ∧
      (looksLikeGlob u = true → iterPaths spec bk = .ok paths →
        List.Sorted (fun a b => a ≤ b) paths) := by
  constructor
  · intro hglob hl hinfos hok
    rw [iterPaths_eq_resolve spec bk hu, huri, hp] at hok
    simp only [resolveFromUri, resolveBase, if_neg hne, hglob, Bool.false_eq_true, if_false,
      dirList, hl, if_neg hinfos] at hok
    cases hok
    exact List.Sublist.trans (List.filter_sublist _)
      (List.Sublist.map _ (List.filter_sublist _))
  · intro hglob hok
    rw [iterPaths_eq_resolve spec bk hu, huri, hp] at hok
    simp only [resolveFromUri, resolveBase, if_neg hne, hglob, if_true] at hok
    cases hok
    exact List.Pairwise.filter _
      (List.sorted_insertionSort (fun a b => a ≤ b) bk.globFiles)

theorem c7_witness :
    (["sftp://h/d/b.csv", "sftp://h/d/a.csv"] : List String).Sublist
      ([⟨"/d/b.csv", "file"⟩, ⟨"/d/x.txt", "file"⟩, ⟨"/d/a.csv", "file"⟩].map
        (dirEntryUri "sftp://h/d/")) :=
  (c7_directory_order_amended ⟨none, some "sftp://h/d", some (Regex.ofString "csv")⟩
      ⟨[], .ok [⟨"/d/b.csv", "file"⟩, ⟨"/d/x.txt", "file"⟩, ⟨"/d/a.csv", "file"⟩], []⟩
      "sftp://h/d" (Regex.ofString "csv")
      [⟨"/d/b.csv", "file"⟩, ⟨"/d/x.txt", "file"⟩, ⟨"/d/a.csv", "file"⟩]
      ["sftp://h/d/b.csv", "sftp://h/d/a.csv"] rfl rfl (by decide) rfl).1
    rfl rfl (by simp) rfl

/-! ## Claim C10 — unanchored search semantics of the pattern filter -/

/-- C10: the pattern filter keeps a path exactly when the regex
`search`-matches somewhere inside its basename: membership in the filtered
list is equivalent to a match, a match is equivalent to the regex
accepting some contiguous infix of the string, and the unanchored literal
pattern `csv` accordingly keeps `data.csv.bak`. -/
theorem c10_search_semantics :
    (∀ (r : Regex) (paths : List String) (p : String),
        p ∈ filterByPattern r paths ↔ p ∈ paths ∧ r.search (basename p) = true) ∧
      (∀ (r : Regex) (s : String),
        r.search s = true ↔
          ∃ u t v : List Char, s.toList = u ++ t ++ v ∧ r.accept t = true) ∧
      (Regex.ofString "csv").search (basename "data.csv.bak") = true := by
  refine ⟨?_, ?_, ?_⟩
  · intro r paths p
    exact List.mem_filter
  · intro r s
    constructor
    · intro h
      simp only [Regex.search, List.any_eq_true, List.mem_range] at h
      rcases h with ⟨i, -, k, -, hacc⟩
      refine ⟨s.toList.take i, (s.toList.drop i).take k, (s.toList.drop i).drop k, ?_, hacc⟩
      rw [List.append_assoc, List.take_append_drop, List.take_append_drop]
    · rintro ⟨u, t, v, hsplit, hacc⟩
      simp only [Regex.search, List.any_eq_true, List.mem_range]
      have hlen : s.toList.length = u.length + t.length + v.length := by
        rw [hsplit]
        simp [Nat.add_assoc]
      refine ⟨u.length, by omega, t.length, by omega, ?_⟩
      have hdrop : s.toList.drop u.length = t ++ v := by
        rw [hsplit, List.append_assoc, List.drop_left]
      rw [hdrop, List.take_left]
      exact hacc
  · rfl

end TapSmartOpen
